import Mathlib

/-!
Verification development for the Securechain backend
(hash-chained ledger, wallet transfer orchestration, fraud scoring).

The Python sources under `backend/` are shallowly embedded:

* Real-number amounts and scores (Python floats used as exact decimal
  arithmetic by the code paths under study) are modelled by `ℚ`.
* The SQLAlchemy-backed tables are modelled as Lean lists.  The `Block`
  table is always read ordered by ascending `block_index`, so the model
  keeps the chain as that ascending-ordered sequence; `order_by(desc)
  .first()` is then the last element of the sequence.
* `db.session.commit` / `rollback` semantics: staged ORM mutations become
  visible only at a successful commit; a rollback restores the committed
  state.  Commit failures (storage errors) are injected through explicit
  boolean parameters, and a commit also fails when it would violate the
  unique constraint on `tx_id`.
* External effects (timestamps, uuid payment ids, the clock hour, Python's
  process-salted `hash`, and the Isolation Forest's `decision_function`
  output) are passed in as explicit parameters.
-/

namespace Sha256

/-- Truncation to a 32-bit word, the Python/int wrap used by SHA-256. -/
def w32 (n : Nat) : Nat := n % 4294967296

/-- Right rotation of a 32-bit word. -/
def rotr (n x : Nat) : Nat := w32 ((x >>> n) ||| (x <<< (32 - n)))

/-- SHA-256 Σ0. -/
def bigS0 (x : Nat) : Nat := rotr 2 x ^^^ rotr 13 x ^^^ rotr 22 x

/-- SHA-256 Σ1. -/
def bigS1 (x : Nat) : Nat := rotr 6 x ^^^ rotr 11 x ^^^ rotr 25 x

/-- SHA-256 σ0. -/
def smallS0 (x : Nat) : Nat := rotr 7 x ^^^ rotr 18 x ^^^ (x >>> 3)

/-- SHA-256 σ1. -/
def smallS1 (x : Nat) : Nat := rotr 17 x ^^^ rotr 19 x ^^^ (x >>> 10)

/-- SHA-256 Ch, with ¬x taken as xor against the 32-bit all-ones mask. -/
def ch (x y z : Nat) : Nat := (x &&& y) ^^^ ((x ^^^ 4294967295) &&& z)

/-- SHA-256 Maj. -/
def maj (x y z : Nat) : Nat := (x &&& y) ^^^ (x &&& z) ^^^ (y &&& z)

/-- The 64 SHA-256 round constants. -/
def K : List Nat :=
  [1116352408, 1899447441, 3049323471, 3921009573, 961987163, 1508970993,
   2453635748, 2870763221, 3624381080, 310598401, 607225278, 1426881987,
   1925078388, 2162078206, 2614888103, 3248222580, 3835390401, 4022224774,
   264347078, 604807628, 770255983, 1249150122, 1555081692, 1996064986,
   2554220882, 2821834349, 2952996808, 3210313671, 3336571891, 3584528711,
   113926993, 338241895, 666307205, 773529912, 1294757372, 1396182291,
   1695183700, 1986661051, 2177026350, 2456956037, 2730485921, 2820302411,
   3259730800, 3345764771, 3516065817, 3600352804, 4094571909, 275423344,
   430227734, 506948616, 659060556, 883997877, 958139571, 1322822218,
   1537002063, 1747873779, 1955562222, 2024104815, 2227730452, 2361852424,
   2428436474, 2756734187, 3204031479, 3329325298]

/-- The initial SHA-256 hash state. -/
def H0 : List Nat :=
  [1779033703, 3144134277, 1013904242, 2773480762, 1359893119, 2600822924,
   528734635, 1541459225]

/-- UTF-8 encoding of one character (the model of `str.encode('utf-8')`). -/
def utf8Bytes (c : Char) : List Nat :=
  let n := c.toNat
  if n < 128 then [n]
  else if n < 2048 then [192 ||| (n >>> 6), 128 ||| (n &&& 63)]
  else if n < 65536 then
    [224 ||| (n >>> 12), 128 ||| ((n >>> 6) &&& 63), 128 ||| (n &&& 63)]
  else
    [240 ||| (n >>> 18), 128 ||| ((n >>> 12) &&& 63),
     128 ||| ((n >>> 6) &&& 63), 128 ||| (n &&& 63)]

/-- UTF-8 byte sequence of a string. -/
def strBytes (s : String) : List Nat := (s.data.map utf8Bytes).flatten

/-- Big-endian byte representation of `n`, `k` bytes long. -/
def beBytes : Nat → Nat → List Nat
  | 0, _ => []
  | k + 1, n => beBytes k (n >>> 8) ++ [n &&& 255]

/-- SHA-256 message padding: append `0x80`, zero-pad to 56 mod 64, then the
64-bit big-endian bit length. -/
def padMessage (msg : List Nat) : List Nat :=
  let L := msg.length
  let k := (119 - (L % 64)) % 64
  msg ++ [128] ++ List.replicate k 0 ++ beBytes 8 (8 * L)

/-- Pack bytes into big-endian 32-bit words. -/
def toWords : List Nat → List Nat
  | a :: b :: c :: d :: rest =>
      ((a <<< 24) ||| (b <<< 16) ||| (c <<< 8) ||| d) :: toWords rest
  | _ => []

/-- Message-schedule extension step, on the reversed word list
(head = most recent word). -/
def sched : Nat → List Nat → List Nat
  | 0, rws => rws
  | n + 1, rws =>
      sched n (w32 (smallS1 (rws.getD 1 0) + rws.getD 6 0 +
        smallS0 (rws.getD 14 0) + rws.getD 15 0) :: rws)

/-- One SHA-256 compression round on the 8-word working state. -/
def roundStep (st : List Nat) (kw : Nat × Nat) : List Nat :=
  match st with
  | [a, b, c, d, e, f, g, hh] =>
      let t1 := w32 (hh + bigS1 e + ch e f g + kw.1 + kw.2)
      let t2 := w32 (bigS0 a + maj a b c)
      [w32 (t1 + t2), a, b, c, w32 (d + t1), e, f, g]
  | other => other

/-- Compress one 64-byte block into the hash state. -/
def compress (hs : List Nat) (block : List Nat) : List Nat :=
  let ws := (sched 48 (toWords block).reverse).reverse
  let fin := (K.zip ws).foldl roundStep hs
  hs.zipWith (fun x y => w32 (x + y)) fin

/-- Process `n` 64-byte blocks of `bytes`. -/
def processN : Nat → List Nat → List Nat → List Nat
  | 0, hs, _ => hs
  | n + 1, hs, bytes => processN n (compress hs (bytes.take 64)) (bytes.drop 64)

/-- One lowercase hexadecimal digit. -/
def hexDigit (n : Nat) : Char :=
  if n < 10 then Char.ofNat (48 + n) else Char.ofNat (87 + n)

/-- `k`-digit lowercase hexadecimal rendering, most significant digit first. -/
def hexN : Nat → Nat → List Char
  | 0, _ => []
  | k + 1, n => hexN k (n >>> 4) ++ [hexDigit (n &&& 15)]

end Sha256

/-- Model of `blockchain.compute_hash`: the SHA-256 lowercase hex digest of
the UTF-8 encoding of the given string. -/
def compute_hash (s : String) : String :=
  let msg := Sha256.padMessage (Sha256.strBytes s)
  let hs := Sha256.processN (msg.length / 64) Sha256.H0 msg
  String.mk ((hs.map (Sha256.hexN 8)).flatten)

/-! ## Data model (`models.py`) -/

/-- Model of the `users` table row (only the fields the core reads). -/
structure UserR where
  id : ℕ
  email : String
deriving DecidableEq, Repr

/-- Model of the `wallets` table row. -/
structure WalletR where
  user_id : ℕ
  wallet_id : String
  balance : ℚ
deriving DecidableEq, Repr

/-- Model of the `transactions` table row.  Column defaults from
`models.Transaction` appear explicitly at each construction site. -/
structure TxnR where
  tx_id : String
  sender : String
  receiver : String
  amount : ℚ
  fraud_score : ℚ
  status : String
  transfer_status : String
  type : String
  payment_method : Option String
  payment_id : Option String
deriving DecidableEq, Repr

/-- Model of the `blockchain` table row.  The timestamp is kept as its
`isoformat` string, which is all `add_block` consumes. -/
structure BlockR where
  block_index : ℕ
  transaction_id : String
  previous_hash : String
  current_hash : String
  timestamp : String
deriving DecidableEq, Repr

/-- The persistent state seen by the backend: the four tables, the in-memory
`_deposit_processing` key set, and the fraud-model snapshot.  The model
snapshot is recorded as the full transaction history it was fitted on
(`none` = untrained); the Isolation Forest internals stay external to the
embedding. -/
structure St where
  users : List UserR
  wallets : List WalletR
  txns : List TxnR
  chain : List BlockR
  locks : List String
  mlModel : Option (List TxnR)
deriving DecidableEq, Repr

/-! ## Ledger (`blockchain.py`) -/

/-- The 64-zero-character genesis previous hash (`'0' * 64`). -/
def zeros64 : String := String.mk (List.replicate 64 '0')

/-- Model of `blockchain.get_last_block`: `order_by(block_index.desc())
.first()` on the index-ascending chain sequence is its last element. -/
def get_last_block (chain : List BlockR) : Option BlockR := chain.getLast?

/-- Model of `blockchain.add_block`: build the next block from the current
tail and append it.  Returns the new block and the extended chain. -/
def add_block (chain : List BlockR) (transaction_id now : String) :
    BlockR × List BlockR :=
  let last := get_last_block chain
  let prev_hash := match last with
    | some l => l.current_hash
    | none => zeros64
  let new_index := match last with
    | some l => l.block_index + 1
    | none => 0
  let current_hash :=
    compute_hash (transaction_id ++ prev_hash ++ now ++ toString new_index)
  let b : BlockR := ⟨new_index, transaction_id, prev_hash, current_hash, now⟩
  (b, chain ++ [b])

/-- The mismatch description emitted by `validate_chain` for the adjacent
pair `(a, b)` (its f-string rendered via `++`). -/
def mismatchMsg (a b : BlockR) : String :=
  "Block #" ++ toString b.block_index ++ ": previous_hash mismatch (expected "
    ++ a.current_hash ++ ", got " ++ b.previous_hash ++ ")"

/-- Error contribution of one adjacent pair in `validate_chain`. -/
def pairErr (a b : BlockR) : List String :=
  if b.previous_hash == a.current_hash then [] else [mismatchMsg a b]

/-- The error list accumulated by `validate_chain`'s sequential scan over
adjacent pairs. -/
def chainErrors : List BlockR → List String
  | a :: b :: rest => pairErr a b ++ chainErrors (b :: rest)
  | _ => []

/-- Result shape of `validate_chain`. -/
structure ValidationResult where
  valid : Bool
  errors : List String
  totalBlocks : ℕ
deriving DecidableEq, Repr

/-- Model of `blockchain.validate_chain`. -/
def validate_chain (chain : List BlockR) : ValidationResult :=
  let errors := chainErrors chain
  ⟨errors.isEmpty, errors, chain.length⟩

/-- A chain built only through `add_block`, from the given
(transaction id, timestamp) pairs. -/
def buildChain (l : List (String × String)) : List BlockR :=
  l.foldl (fun c p => (add_block c p.1 p.2).2) []

/-! ## Fraud scorer (`ml_model.py`, `config.py`) -/

namespace Config

/-- `Config.WARNING_THRESHOLD = 0.4`. -/
def WARNING_THRESHOLD : ℚ := 2/5

/-- `Config.FRAUD_THRESHOLD = 0.7`. -/
def FRAUD_THRESHOLD : ℚ := 7/10

end Config

/-- Model of `wallet._get_status_label` (identical in `routes.py`). -/
def get_status_label (score : ℚ) : String :=
  if score < Config.WARNING_THRESHOLD then "Clear"
  else if score < Config.FRAUD_THRESHOLD then "Review"
  else "Suspicious"

/-- Round-half-to-even to an integer, the semantics of Python's `round`. -/
def roundHalfEven (q : ℚ) : ℤ :=
  let f := ⌊q⌋
  if q - f < 1/2 then f
  else if q - f > 1/2 then f + 1
  else if f % 2 = 0 then f else f + 1

/-- Model of `round(x, 3)`. -/
def round3 (q : ℚ) : ℚ := (roundHalfEven (q * 1000) : ℚ) / 1000

/-- Model of Python's `amount % 1000 == 0` on a positive real amount:
`amount / 1000` is an integer. -/
def isThousandMultiple (a : ℚ) : Bool := (a / 1000).den == 1

/-- Model of `ml_model._rule_based_score`.  `pyhash` stands for Python's
(process-salted, here abstract) built-in `hash`; its `% 100` is Python's
nonnegative remainder, i.e. `Int.emod`. -/
def rule_based_score (pyhash : String → ℤ) (amount : ℚ)
    (sender_freq receiver_freq hour : ℕ) : ℚ :=
  let s1 : ℚ :=
    if amount > 50000 then 35/100
    else if amount > 10000 then 2/10
    else if amount > 5000 then 1/10
    else 0
  let s2 := if amount > 0 ∧ isThousandMultiple amount then s1 + 5/100 else s1
  let s3 :=
    if sender_freq > 10 then s2 + 15/100
    else if sender_freq > 5 then s2 + 8/100
    else s2
  let s4 :=
    if receiver_freq > 10 then s3 + 15/100
    else if receiver_freq > 5 then s3 + 8/100
    else s3
  let s5 := if hour < 6 ∨ hour > 22 then s4 + 1/10 else s4
  let noise : ℚ :=
    ((pyhash (toString amount ++ toString sender_freq ++ toString hour)).emod
      100 : ℤ) / 500
  max 0 (min (95/100) (s5 + noise))

/-- Model of `ml_model.predict_fraud`.  `trained` is `_is_trained and _model
is not None`; `mlRaw` is the Isolation Forest's `decision_function` output,
an external input consumed only in the trained branch. -/
def predict_fraud (trained : Bool) (mlRaw : ℚ) (pyhash : String → ℤ)
    (amount : ℚ) (sender_freq receiver_freq hour : ℕ) : ℚ :=
  round3 (if trained then max 0 (min 1 (1/2 - mlRaw))
          else rule_based_score pyhash amount sender_freq receiver_freq hour)

/-! ## Wallet transfer (`wallet.py`) -/

/-- Outcome of `wallet.transfer`, one constructor per distinct response of
the route (plus the dynamic data the response carries). -/
inductive TransferOut where
  | completed (tx : TxnR) (blk : BlockR)
  | receiverRequired
  | amountNotPositive
  | senderNotFound
  | selfTransfer
  | insufficientBalance (balance : ℚ)
  | receiverNotFound
  | internalError
deriving DecidableEq, Repr

/-- Whether a transfer outcome is the success response. -/
def TransferOut.isCompleted : TransferOut → Bool
  | .completed _ _ => true
  | _ => false

/-- The in-memory debit of the sender and credit of the receiver
(`sender_wallet.balance -= amount; receiver_wallet.balance += amount`),
keyed by the unique `wallet_id`. -/
def applyTransferBalances (ws : List WalletR) (senderId receiverId : String)
    (amount : ℚ) : List WalletR :=
  ws.map fun w =>
    if w.wallet_id = senderId then { w with balance := w.balance - amount }
    else if w.wallet_id = receiverId then { w with balance := w.balance + amount }
    else w

/-- Model of `wallet.transfer` for an authenticated user `uid` and an
already-parsed numeric `amount`.  `txId` and `now` model the
timestamp-derived transaction id and `datetime.utcnow()`; `hour`, `mlRaw`
and `pyhash` feed the fraud scorer.  `recordCommitFails` injects a storage
failure into the commit of the debit/credit + Completed record;
`blockCommitFails` injects one into `add_block`'s commit.  A commit also
fails when it would duplicate an existing `tx_id` (unique column). -/
def transfer (st : St) (uid : ℕ) (receiverWalletId : String) (amount : ℚ)
    (txId now : String) (hour : ℕ) (mlRaw : ℚ) (pyhash : String → ℤ)
    (recordCommitFails blockCommitFails : Bool) : TransferOut × St :=
  if receiverWalletId = "" then (.receiverRequired, st)
  else if amount ≤ 0 then (.amountNotPositive, st)
  else
    match st.wallets.find? (fun w => w.user_id == uid) with
    | none => (.senderNotFound, st)
    | some sw =>
      if sw.wallet_id = receiverWalletId then (.selfTransfer, st)
      else if sw.balance < amount then (.insufficientBalance sw.balance, st)
      else
        match st.wallets.find? (fun w => w.wallet_id == receiverWalletId) with
        | none => (.receiverNotFound, st)
        | some rw =>
          let senderName := match st.users.find? (fun u => u.id == uid) with
            | some u => u.email
            | none => "Unknown"
          let receiverName :=
            match st.users.find? (fun u => u.id == rw.user_id) with
            | some u => u.email
            | none => "Unknown"
          let newWallets :=
            applyTransferBalances st.wallets sw.wallet_id receiverWalletId amount
          let senderFreq :=
            st.txns.countP (fun t => t.sender.toLower == senderName.toLower) + 1
          let receiverFreq :=
            st.txns.countP
              (fun t => t.receiver.toLower == receiverName.toLower) + 1
          let score := predict_fraud st.mlModel.isSome mlRaw pyhash amount
            senderFreq receiverFreq hour
          let label := get_status_label score
          let tx : TxnR := ⟨txId, senderName, receiverName, amount, score,
            label, "Completed", "transfer", none, none⟩
          let failedTx : TxnR := ⟨txId, senderName, receiverName, amount, 0,
            "Clear", "Failed", "transfer", none, none⟩
          let dup := st.txns.any (fun t => t.tx_id == txId)
          if recordCommitFails ∨ dup then
            -- first commit fails: rollback leaves the committed state `st`;
            -- the except-branch then tries to persist the Failed record,
            -- which itself dies (swallowed) if `txId` already exists
            if dup then (.internalError, st)
            else (.internalError, { st with txns := st.txns ++ [failedTx] })
          else
            let st1 := { st with wallets := newWallets,
                                 txns := st.txns ++ [tx] }
            if blockCommitFails then
              -- `add_block`'s commit fails after the transfer was committed:
              -- rollback only discards the staged block, and the Failed
              -- record insert violates the unique `tx_id` and is swallowed
              (.internalError, st1)
            else
              let r := add_block st1.chain txId now
              (.completed tx r.1, { st1 with chain := r.2 })

/-! ## Mock bank-to-wallet deposit (`wallet.py`) -/

/-- Outcome of `wallet.mock_deposit`, one constructor per distinct
response. -/
inductive DepositOut where
  | completed (tx : TxnR) (newBalance : ℚ)
  | belowMinimum
  | invalidMethod
  | alreadyProcessing
  | userNotFound
  | internalError
deriving DecidableEq, Repr

/-- The body of `mock_deposit`'s `try` block after the wallet has been
resolved (or auto-created) as `w`; `st` already holds the acquired
`lockKey`, which the `finally` clause releases on every path. -/
def depositCore (st : St) (uid : ℕ) (w : WalletR) (amount : ℚ)
    (method payId txId : String) (commitFails : Bool) (lockKey : String) :
    DepositOut × St :=
  let email := match st.users.find? (fun u => u.id == uid) with
    | some u => u.email
    | none => "Unknown"
  let dup := st.txns.any (fun t => t.tx_id == txId)
  if commitFails ∨ dup then
    (.internalError, { st with locks := st.locks.erase lockKey })
  else
    let newWallets := st.wallets.map fun x =>
      if x.wallet_id = w.wallet_id then { x with balance := x.balance + amount }
      else x
    let tx : TxnR := ⟨txId, "Bank Deposit", email, amount, 0, "Clear",
      "Completed", "deposit", some method, some payId⟩
    (.completed tx (w.balance + amount),
     { st with wallets := newWallets, txns := st.txns ++ [tx],
               locks := st.locks.erase lockKey })

/-- Model of `wallet.mock_deposit` for an authenticated user `uid` and an
already-parsed numeric `amount`.  `payId`, `txId` and `now` model the
generated payment id, the timestamp-derived transaction id and
`datetime.utcnow()`; `commitFails` injects a storage failure into the
credit-and-record commit.  The simulated 2-second latency has no
state-level effect and is not modelled. -/
def mock_deposit (st : St) (uid : ℕ) (amount : ℚ) (paymentMethod : String)
    (payId txId now : String) (commitFails : Bool) : DepositOut × St :=
  let method := paymentMethod.trim.toLower
  if amount < 10 then (.belowMinimum, st)
  else if ¬ (method = "upi" ∨ method = "card" ∨ method = "netbanking") then
    (.invalidMethod, st)
  else
    let lockKey := "deposit-" ++ toString uid
    if lockKey ∈ st.locks then (.alreadyProcessing, st)
    else
      let locked := { st with locks := st.locks ++ [lockKey] }
      match locked.wallets.find? (fun w => w.user_id == uid) with
      | some w => depositCore locked uid w amount method payId txId
          commitFails lockKey
      | none =>
        match locked.users.find? (fun u => u.id == uid) with
        | none => (.userNotFound,
            { locked with locks := locked.locks.erase lockKey })
        | some u =>
          -- `create_wallet_for_user` commits a fresh zero-balance wallet
          let nw : WalletR := ⟨uid,
            compute_hash ("wallet-" ++ toString uid ++ "-" ++ u.email
              ++ "-" ++ now), 0⟩
          depositCore { locked with wallets := locked.wallets ++ [nw] }
            uid nw amount method payId txId commitFails lockKey

/-! ## Generic transaction creation and retraining (`routes.py`) -/

/-- Outcome of `routes.create_transaction`. -/
inductive CreateOut where
  | created (tx : TxnR) (blk : BlockR)
  | missingFields
  | amountNotPositive
deriving DecidableEq, Repr

/-- Model of `routes._retrain_model`: with fewer than 10 records it returns
without training; otherwise it fits a fresh model on the full history and
swaps it in (recorded as the history snapshot). -/
def retrain_model (st : St) : St :=
  if st.txns.length < 10 then st else { st with mlModel := some st.txns }

/-- Model of `routes.create_transaction` (the generic, non-wallet flow):
validate, score, persist the record, append a ledger block, then retrain
the fraud model whenever the post-commit record count is a multiple
of 10. -/
def create_transaction (st : St) (sender receiver : String) (amount : ℚ)
    (txId now : String) (hour : ℕ) (mlRaw : ℚ) (pyhash : String → ℤ) :
    CreateOut × St :=
  let s := sender.trim
  let r := receiver.trim
  if s = "" ∨ r = "" then (.missingFields, st)
  else if amount ≤ 0 then (.amountNotPositive, st)
  else
    let senderFreq := st.txns.countP (fun t => t.sender.toLower == s.toLower) + 1
    let receiverFreq :=
      st.txns.countP (fun t => t.receiver.toLower == r.toLower) + 1
    let score := predict_fraud st.mlModel.isSome mlRaw pyhash amount
      senderFreq receiverFreq hour
    let label := get_status_label score
    let tx : TxnR := ⟨txId, s, r, amount, score, label, "Completed",
      "transfer", none, none⟩
    let st1 := { st with txns := st.txns ++ [tx] }
    let rb := add_block st1.chain txId now
    let st2 := { st1 with chain := rb.2 }
    let txCount : ℕ := st2.txns.length
    let st3 := if txCount % 10 = 0 then retrain_model st2 else st2
    (.created tx rb.1, st3)

/-- Balance of the wallet with the given id, if present. -/
def lookupBalance (st : St) (walletId : String) : Option ℚ :=
  (st.wallets.find? (fun w => w.wallet_id == walletId)).map (fun w => w.balance)

/-! ## Helper lemmas -/

/-- Releasing a freshly acquired key returns the lock set to its previous
value. -/
theorem erase_append_self {a : String} {l : List String} (h : a ∉ l) :
    (l ++ [a]).erase a = l := by
  rw [List.erase_append_right _ h, List.erase_cons_head]
  simp

/-- `find?` commutes with a map that does not change the predicate. -/
theorem find?_map_pres {α : Type} (g : α → α) (p : α → Bool)
    (hpg : ∀ a, p (g a) = p a) (l : List α) :
    (l.map g).find? p = (l.find? p).map g := by
  have hc : p ∘ g = p := funext hpg
  rw [List.find?_map, hc]

/-- With pairwise-distinct keys, `find?` on a member's key returns exactly
that member. -/
theorem find?_key_of_mem {α : Type} (k : α → String) {l : List α}
    (hn : (l.map k).Nodup) {a : α} (ha : a ∈ l) :
    l.find? (fun x => k x == k a) = some a := by
  induction l with
  | nil => cases ha
  | cons b t ih =>
    rw [List.map_cons, List.nodup_cons] at hn
    rcases List.mem_cons.mp ha with rfl | hat
    · simp [List.find?_cons]
    · have hne : ¬ k b = k a := by
        intro he
        exact hn.1 (he ▸ List.mem_map_of_mem k hat)
      have hbeq : (k b == k a) = false := by
        simpa using hne
      rw [List.find?_cons, hbeq]
      exact ih hn.2 hat

/-! ## C4 -/

/-- C4: every `add_block` call gives the new block index 0 and a previous
hash of 64 zero characters when the chain is empty, and otherwise the tail
block's index plus one and the tail block's current hash; its current hash
is the SHA-256 hex digest of the concatenation of the transaction
reference, the previous hash, the timestamp and the index; and the new
block is persisted at the end of the chain and returned. -/
theorem c4_append_block_spec (chain : List BlockR) (ref now : String) :
    (chain = [] → (add_block chain ref now).1.block_index = 0 ∧
      (add_block chain ref now).1.previous_hash = zeros64) ∧
    (∀ tail, get_last_block chain = some tail →
      (add_block chain ref now).1.block_index = tail.block_index + 1 ∧
      (add_block chain ref now).1.previous_hash = tail.current_hash) ∧
    (add_block chain ref now).1.current_hash =
      compute_hash (ref ++ (add_block chain ref now).1.previous_hash ++ now
        ++ toString (add_block chain ref now).1.block_index) ∧
    (add_block chain ref now).1.transaction_id = ref ∧
    (add_block chain ref now).1.timestamp = now ∧
    (add_block chain ref now).2 = chain ++ [(add_block chain ref now).1] := by
  cases hc : get_last_block chain with
  | none => simp [add_block, hc]
  | some tail =>
    have hne : chain ≠ [] := by
      intro h
      rw [h] at hc
      simp [get_last_block] at hc
    refine ⟨fun h => absurd h hne, ?_, ?_, ?_, ?_, ?_⟩ <;>
      simp [add_block, hc]

/-- Concrete instances of `c4_append_block_spec`: the genesis case on the
empty chain, and the successor case on a one-block chain. -/
theorem c4_append_block_spec_witness :
    ((add_block [] "TX-1" "t0").1.block_index = 0 ∧
     (add_block [] "TX-1" "t0").1.previous_hash = zeros64) ∧
    ((add_block [⟨0, "TX-0", zeros64, "h0", "t"⟩] "TX-1" "t1").1.block_index = 1 ∧
     (add_block [⟨0, "TX-0", zeros64, "h0", "t"⟩] "TX-1" "t1").1.previous_hash
       = "h0") := by
  refine ⟨(c4_append_block_spec [] "TX-1" "t0").1 rfl, ?_⟩
  exact (c4_append_block_spec [⟨0, "TX-0", zeros64, "h0", "t"⟩] "TX-1" "t1").2.1
    ⟨0, "TX-0", zeros64, "h0", "t"⟩ rfl

/-! ## Chain-scan lemmas -/

/-- Unfolding of the adjacent-pair scan at a two-element head. -/
theorem chainErrors_cons_cons (a b : BlockR) (r : List BlockR) :
    chainErrors (a :: b :: r) = pairErr a b ++ chainErrors (b :: r) := rfl

/-- The scan looks at the head block only through its current hash. -/
theorem chainErrors_head_congr {x y : BlockR}
    (h : x.current_hash = y.current_hash) (r : List BlockR) :
    chainErrors (x :: r) = chainErrors (y :: r) := by
  cases r with
  | nil => rfl
  | cons b t => simp [chainErrors_cons_cons, pairErr, mismatchMsg, h]

/-- Appending one block adds the error contribution of the new last pair. -/
theorem chainErrors_append_last (c : List BlockR) (b : BlockR) :
    chainErrors (c ++ [b]) =
      chainErrors c ++ c.getLast?.elim [] (fun a => pairErr a b) := by
  induction c with
  | nil => simp [chainErrors]
  | cons x t ih =>
    cases t with
    | nil => simp [chainErrors, pairErr]
    | cons y r =>
      have h1 : (x :: y :: r) ++ [b] = x :: y :: (r ++ [b]) := by simp
      rw [h1, chainErrors_cons_cons]
      have h2 : (y :: r) ++ [b] = y :: (r ++ [b]) := by simp
      rw [h2] at ih
      rw [ih, chainErrors_cons_cons, List.getLast?_cons_cons, List.append_assoc]

/-- The scan finds no mismatch exactly when every adjacent pair links. -/
theorem chainErrors_eq_nil_iff_chain (c : List BlockR) :
    chainErrors c = [] ↔
      List.Chain' (fun a b => b.previous_hash = a.current_hash) c := by
  induction c with
  | nil => simp [chainErrors]
  | cons x t ih =>
    cases t with
    | nil => simp [chainErrors]
    | cons y r =>
      rw [chainErrors_cons_cons, List.chain'_cons, ← ih]
      constructor
      · intro h
        rcases List.append_eq_nil.mp h with ⟨h1, h2⟩
        refine ⟨?_, h2⟩
        by_contra hne
        simp [pairErr, beq_eq_false_iff_ne, hne] at h1
      · rintro ⟨h1, h2⟩
        simp [pairErr, h1, h2]

/-- The second component of `add_block` appends the first. -/
theorem add_block_snd (c : List BlockR) (r t : String) :
    (add_block c r t).2 = c ++ [(add_block c r t).1] := rfl

/-- The previous hash chosen by `add_block`. -/
theorem add_block_prev (c : List BlockR) (r t : String) :
    (add_block c r t).1.previous_hash =
      (get_last_block c).elim zeros64 (fun l => l.current_hash) := by
  cases h : get_last_block c <;> simp [add_block, h]

/-- Chains produced by repeated `add_block` calls from a mismatch-free
chain stay mismatch-free. -/
theorem chainErrors_build_go (l : List (String × String)) (c : List BlockR)
    (hc : chainErrors c = []) :
    chainErrors (l.foldl (fun c p => (add_block c p.1 p.2).2) c) = [] := by
  induction l generalizing c with
  | nil => exact hc
  | cons p t ih =>
    simp only [List.foldl_cons]
    apply ih
    rw [add_block_snd, chainErrors_append_last, hc]
    cases hlast : c.getLast? with
    | none => simp
    | some a =>
      have hprev : (add_block c p.1 p.2).1.previous_hash = a.current_hash := by
        rw [add_block_prev]
        simp [get_last_block, hlast]
      simp [pairErr, hprev]

/-- Each `add_block` grows the chain by exactly one block. -/
theorem build_go_length (l : List (String × String)) (c : List BlockR) :
    (l.foldl (fun c p => (add_block c p.1 p.2).2) c).length
      = c.length + l.length := by
  induction l generalizing c with
  | nil => simp
  | cons p t ih =>
    simp only [List.foldl_cons]
    rw [ih, add_block_snd]
    simp
    omega

/-- Corrupting the previous hash of a non-genesis block in a mismatch-free
chain produces exactly the one mismatch entry for that block. -/
theorem chainErrors_corrupt (pre : List BlockR) (a b : BlockR)
    (post : List BlockR) (nh : String)
    (hok : chainErrors (pre ++ a :: b :: post) = [])
    (hne : nh ≠ a.current_hash) :
    chainErrors (pre ++ a :: { b with previous_hash := nh } :: post)
      = [mismatchMsg a { b with previous_hash := nh }] := by
  induction pre with
  | nil =>
    simp only [List.nil_append] at hok ⊢
    rw [chainErrors_cons_cons] at hok
    rcases List.append_eq_nil.mp hok with ⟨h1, h2⟩
    rw [chainErrors_cons_cons,
      chainErrors_head_congr
        (show ({ b with previous_hash := nh } : BlockR).current_hash
          = b.current_hash from rfl) post,
      h2]
    simp [pairErr, hne]
  | cons p ps ih =>
    cases ps with
    | nil =>
      simp only [List.cons_append, List.nil_append] at hok ⊢
      rw [chainErrors_cons_cons] at hok
      rcases List.append_eq_nil.mp hok with ⟨h1, h2⟩
      have h3 := ih (by simpa using h2)
      simp only [List.nil_append] at h3
      rw [chainErrors_cons_cons, h3, h1]
      simp
    | cons q qs =>
      simp only [List.cons_append] at hok ⊢
      rw [chainErrors_cons_cons] at hok
      rcases List.append_eq_nil.mp hok with ⟨h1, h2⟩
      have h3 := ih (by simpa using h2)
      simp only [List.cons_append] at h3
      rw [chainErrors_cons_cons, h3, h1]
      simp

/-! ## C5 -/

/-- C5 (amended): `validate_chain` returns `valid = true` exactly when every
adjacent pair of stored blocks links (`previousHash` of the later equals
`currentHash` of the earlier), reports `totalBlocks` equal to the chain
length, returns `valid = true` with an empty error list on any chain built
only by `add_block`, and after corrupting the `previousHash` of one
non-genesis block of a mismatch-free chain it returns exactly one error
whose text names that block's index and the expected versus actual hash.
(The genesis block's `previousHash` takes part in no adjacent pair, so
corrupting it is not reported; see the counterexample.) -/
theorem c5_validate_chain_spec :
    (∀ c : List BlockR, (validate_chain c).valid = true ↔
       List.Chain' (fun a b => b.previous_hash = a.current_hash) c) ∧
    (∀ c : List BlockR, (validate_chain c).totalBlocks = c.length) ∧
    (∀ l : List (String × String),
       validate_chain (buildChain l) = ⟨true, [], l.length⟩) ∧
    (∀ (pre : List BlockR) (a b : BlockR) (post : List BlockR) (nh : String),
       chainErrors (pre ++ a :: b :: post) = [] → nh ≠ a.current_hash →
       validate_chain (pre ++ a :: { b with previous_hash := nh } :: post)
         = ⟨false, [mismatchMsg a { b with previous_hash := nh }],
            pre.length + (post.length + 2)⟩) := by
  refine ⟨?_, ?_, ?_, ?_⟩
  · intro c
    rw [← chainErrors_eq_nil_iff_chain]
    simp [validate_chain, List.isEmpty_iff]
  · intro c
    rfl
  · intro l
    have hE : chainErrors (buildChain l) = [] :=
      chainErrors_build_go l [] rfl
    have hL : (buildChain l).length = l.length := by
      have := build_go_length l []
      simpa [buildChain] using this
    simp [validate_chain, hE, hL]
  · intro pre a b post nh hok hne
    have hE := chainErrors_corrupt pre a b post nh hok hne
    simp [validate_chain, hE]

/-- Concrete instance of the corruption clause of `c5_validate_chain_spec`:
on a linked two-block chain, overwriting the second block's previous hash
yields exactly one mismatch error. -/
theorem c5_validate_chain_spec_witness :
    validate_chain [⟨0, "T0", zeros64, "hA", "t0"⟩,
        ⟨1, "T1", "zz", "hB", "t1"⟩]
      = ⟨false, [mismatchMsg ⟨0, "T0", zeros64, "hA", "t0"⟩
          ⟨1, "T1", "zz", "hB", "t1"⟩], 2⟩ := by
  have h := c5_validate_chain_spec.2.2.2 [] ⟨0, "T0", zeros64, "hA", "t0"⟩
    ⟨1, "T1", "hA", "hB", "t1"⟩ [] "zz" (by decide) (by decide)
  simpa using h

/-- C5 counterexample: on the one-block chain built by `add_block`,
corrupting the genesis block's `previousHash` (a genuine change away from
the 64-zero value) is not reported at all: `validate_chain` still returns
`valid = true` with an empty error list, not exactly one error. -/
theorem c5_genesis_corruption_undetected :
    validate_chain ((buildChain [("TX-1", "t0")]).map
        (fun b => { b with previous_hash := String.mk (List.replicate 64 'f') }))
      = ⟨true, [], 1⟩ ∧
    (buildChain [("TX-1", "t0")]).map (fun b => b.previous_hash) = [zeros64] ∧
    String.mk (List.replicate 64 'f') ≠ zeros64 := by
  refine ⟨?_, ?_, by decide⟩ <;> rfl

/-! ## C10 -/

/-- Agreement on exactly the fields `validate_chain` reads: index and the
two hash fields; `transactionRef` and `timestamp` are left free. -/
def SameHashFields (b1 b2 : BlockR) : Prop :=
  b1.block_index = b2.block_index ∧ b1.previous_hash = b2.previous_hash ∧
    b1.current_hash = b2.current_hash

/-- The adjacent-pair scan is determined by the hash fields and index. -/
theorem chainErrors_congr {c1 c2 : List BlockR}
    (hf : List.Forall₂ SameHashFields c1 c2) :
    chainErrors c1 = chainErrors c2 := by
  induction hf with
  | nil => rfl
  | cons hab htail ih =>
    rename_i a1 a2 t1 t2
    cases htail with
    | nil => rfl
    | cons hbc htail2 =>
      rename_i b1 b2 r1 r2
      rw [chainErrors_cons_cons, chainErrors_cons_cons, ih]
      have hp : pairErr a1 b1 = pairErr a2 b2 := by
        simp [pairErr, mismatchMsg, hab.2.2, hbc.1, hbc.2.1]
      rw [hp]

/-- C10: `validate_chain` decides validity solely from the stored index and
`previousHash`/`currentHash` fields of the blocks: any two stored chains
that agree pointwise on those fields — however they differ in
`transactionRef` or `timestamp` — get the identical validation result. -/
theorem c10_validate_ignores_contents {c1 c2 : List BlockR}
    (hf : List.Forall₂ SameHashFields c1 c2) :
    validate_chain c1 = validate_chain c2 := by
  have hE := chainErrors_congr hf
  have hL := hf.length_eq
  simp [validate_chain, hE, hL]

/-- Concrete instance of `c10_validate_ignores_contents`: altering a
committed block's `transactionRef` (and timestamps) while leaving the hash
fields untouched leaves the chain reported valid. -/
theorem c10_validate_ignores_contents_witness :
    validate_chain [⟨0, "TX-1", zeros64, "hA", "t0"⟩,
        ⟨1, "TX-2", "hA", "hB", "t1"⟩]
      = validate_chain [⟨0, "ALTERED", zeros64, "hA", "t8"⟩,
        ⟨1, "FORGED", "hA", "hB", "t9"⟩] ∧
    (validate_chain [⟨0, "ALTERED", zeros64, "hA", "t8"⟩,
        ⟨1, "FORGED", "hA", "hB", "t9"⟩]).valid = true := by
  refine ⟨c10_validate_ignores_contents ?_, by decide⟩
  exact List.Forall₂.cons ⟨rfl, rfl, rfl⟩
    (List.Forall₂.cons ⟨rfl, rfl, rfl⟩ List.Forall₂.nil)

/-! ## Rounding lemmas -/

/-- Half-even rounding of a nonnegative rational is nonnegative. -/
theorem roundHalfEven_nonneg {q : ℚ} (h : 0 ≤ q) : 0 ≤ roundHalfEven q := by
  have hf : (0 : ℤ) ≤ ⌊q⌋ := by
    rw [Int.le_floor]
    exact_mod_cast h
  simp only [roundHalfEven]
  split_ifs <;> omega

/-- Half-even rounding respects an integer upper bound. -/
theorem roundHalfEven_le {q : ℚ} {n : ℤ} (h : q ≤ (n : ℚ)) :
    roundHalfEven q ≤ n := by
  have hfn : ⌊q⌋ ≤ n := by
    have := Int.floor_le_floor h
    simpa using this
  have hkey : (1 : ℚ)/2 ≤ q - ⌊q⌋ → ⌊q⌋ + 1 ≤ n := by
    intro hhalf
    have h3 : (⌊q⌋ : ℚ) < (n : ℚ) := by linarith
    have h4 : ⌊q⌋ < n := by exact_mod_cast h3
    omega
  simp only [roundHalfEven]
  split_ifs with h1 h2 h3
  · exact hfn
  · exact hkey (by push_neg at h1; linarith)
  · exact hfn
  · exact hkey (by push_neg at h1; linarith)

/-- `round3` keeps nonnegativity. -/
theorem round3_nonneg {q : ℚ} (h : 0 ≤ q) : 0 ≤ round3 q := by
  have h1 : (0 : ℤ) ≤ roundHalfEven (q * 1000) :=
    roundHalfEven_nonneg (by linarith)
  have h2 : (0 : ℚ) ≤ (roundHalfEven (q * 1000) : ℚ) := by exact_mod_cast h1
  simp only [round3]
  positivity

/-- `round3` respects the upper bound 1. -/
theorem round3_le_one {q : ℚ} (h : q ≤ 1) : round3 q ≤ 1 := by
  have h1 : roundHalfEven (q * 1000) ≤ (1000 : ℤ) :=
    roundHalfEven_le (by push_cast; linarith)
  have h2 : (roundHalfEven (q * 1000) : ℚ) ≤ 1000 := by exact_mod_cast h1
  simp only [round3]
  rw [div_le_one (by norm_num)]
  exact h2

/-- The rule-based fallback stays within its own clamp `[0, 0.95]`. -/
theorem rule_based_score_bounds (pyhash : String → ℤ) (amount : ℚ)
    (sender_freq receiver_freq hour : ℕ) :
    0 ≤ rule_based_score pyhash amount sender_freq receiver_freq hour ∧
    rule_based_score pyhash amount sender_freq receiver_freq hour ≤ 95/100 := by
  constructor
  · exact le_max_left 0 _
  · simp only [rule_based_score]
    exact max_le (by norm_num) (min_le_left _ _)

/-! ## C7 -/

/-- C7: every score produced by `predict_fraud` — anomaly-model branch or
rule-based branch — lies in `[0, 1]` and is an integer multiple of
`1/1000` (rounded to 3 decimals), and `get_status_label` assigns `Clear`
below 0.4, `Review` on `[0.4, 0.7)` and `Suspicious` from 0.7 up, with the
boundary scores 0.4 and 0.7 labelled `Review` and `Suspicious`. -/
theorem c7_score_range_and_labels :
    (∀ (trained : Bool) (mlRaw : ℚ) (pyhash : String → ℤ) (amount : ℚ)
       (sender_freq receiver_freq hour : ℕ),
       0 ≤ predict_fraud trained mlRaw pyhash amount sender_freq
         receiver_freq hour ∧
       predict_fraud trained mlRaw pyhash amount sender_freq
         receiver_freq hour ≤ 1 ∧
       ∃ n : ℤ, predict_fraud trained mlRaw pyhash amount sender_freq
         receiver_freq hour = (n : ℚ) / 1000) ∧
    (∀ q : ℚ, (q < 2/5 → get_status_label q = "Clear") ∧
       (2/5 ≤ q → q < 7/10 → get_status_label q = "Review") ∧
       (7/10 ≤ q → get_status_label q = "Suspicious")) ∧
    get_status_label (2/5) = "Review" ∧
    get_status_label (7/10) = "Suspicious" := by
  have hrev : get_status_label (2/5) = "Review" := by
    unfold get_status_label Config.WARNING_THRESHOLD Config.FRAUD_THRESHOLD
    rw [if_neg (by norm_num), if_pos (by norm_num)]
  have hsus : get_status_label (7/10) = "Suspicious" := by
    unfold get_status_label Config.WARNING_THRESHOLD Config.FRAUD_THRESHOLD
    rw [if_neg (by norm_num), if_neg (by norm_num)]
  refine ⟨?_, ?_, hrev, hsus⟩
  · intro trained mlRaw pyhash amount sender_freq receiver_freq hour
    have hin : 0 ≤ (if trained then max 0 (min 1 (1/2 - mlRaw))
          else rule_based_score pyhash amount sender_freq receiver_freq hour) ∧
        (if trained then max 0 (min 1 (1/2 - mlRaw))
          else rule_based_score pyhash amount sender_freq receiver_freq hour)
          ≤ 1 := by
      cases trained with
      | false =>
        have hb := rule_based_score_bounds pyhash amount sender_freq
          receiver_freq hour
        simp only [if_neg Bool.false_ne_true]
        exact ⟨hb.1, by linarith [hb.2]⟩
      | true =>
        simp only [if_pos rfl]
        exact ⟨le_max_left 0 _, max_le (by norm_num) (min_le_left _ _)⟩
    refine ⟨round3_nonneg hin.1, round3_le_one hin.2, ⟨_, rfl⟩⟩
  · intro q
    refine ⟨fun h => ?_, fun h1 h2 => ?_, fun h => ?_⟩
    · unfold get_status_label Config.WARNING_THRESHOLD
      rw [if_pos h]
    · unfold get_status_label Config.WARNING_THRESHOLD Config.FRAUD_THRESHOLD
      rw [if_neg (by linarith), if_pos h2]
    · unfold get_status_label Config.WARNING_THRESHOLD Config.FRAUD_THRESHOLD
      rw [if_neg (by linarith), if_neg (by linarith)]

/-- Concrete instances of `c7_score_range_and_labels`: the label at a
mid-band score, and the score bound at a concrete rule-based call. -/
theorem c7_score_range_and_labels_witness :
    get_status_label (1/2) = "Review" ∧
    0 ≤ predict_fraud false 0 (fun _ => 0) 60000 1 1 14 :=
  ⟨(c7_score_range_and_labels.2.1 (1/2)).2.1 (by norm_num) (by norm_num),
   (c7_score_range_and_labels.1 false 0 (fun _ => 0) 60000 1 1 14).1⟩

/-! ## C8 -/

/-- Spec-side restatement of the rule-based increments as one sum (spec
§4.3): amount tiers, round-amount bonus, the two frequency tiers and the
late-night bonus. -/
def ruleBase (amount : ℚ) (sender_freq receiver_freq hour : ℕ) : ℚ :=
  (if amount > 50000 then 35/100
   else if amount > 10000 then 2/10
   else if amount > 5000 then 1/10
   else 0) +
  (if amount > 0 ∧ isThousandMultiple amount then 5/100 else 0) +
  (if sender_freq > 10 then 15/100
   else if sender_freq > 5 then 8/100
   else 0) +
  (if receiver_freq > 10 then 15/100
   else if receiver_freq > 5 then 8/100
   else 0) +
  (if hour < 6 ∨ hour > 22 then 1/10 else 0)

/-- The jitter term of the rule-based score: the hash of the rendered
`(amount, senderFrequency, hourOfDay)` tuple, reduced mod 100 and divided
by 500. -/
def ruleNoise (pyhash : String → ℤ) (amount : ℚ) (sender_freq hour : ℕ) : ℚ :=
  (((pyhash (toString amount ++ toString sender_freq ++ toString hour)).emod
    100 : ℤ) : ℚ) / 500

/-- The jitter always lies in `[0, 0.2)`. -/
theorem ruleNoise_bounds (pyhash : String → ℤ) (amount : ℚ)
    (sender_freq hour : ℕ) :
    0 ≤ ruleNoise pyhash amount sender_freq hour ∧
    ruleNoise pyhash amount sender_freq hour < 1/5 := by
  unfold ruleNoise
  constructor
  · have h := Int.emod_nonneg
      (pyhash (toString amount ++ toString sender_freq ++ toString hour))
      (show (100 : ℤ) ≠ 0 by norm_num)
    have : (0 : ℚ) ≤ (((pyhash (toString amount ++ toString sender_freq
        ++ toString hour)).emod 100 : ℤ) : ℚ) := by exact_mod_cast h
    linarith
  · have h := Int.emod_lt_of_pos
      (pyhash (toString amount ++ toString sender_freq ++ toString hour))
      (show (0 : ℤ) < 100 by norm_num)
    have : (((pyhash (toString amount ++ toString sender_freq
        ++ toString hour)).emod 100 : ℤ) : ℚ) < 100 := by exact_mod_cast h
    linarith

/-- The increment sum is nonnegative. -/
theorem ruleBase_nonneg (amount : ℚ) (sender_freq receiver_freq hour : ℕ) :
    0 ≤ ruleBase amount sender_freq receiver_freq hour := by
  unfold ruleBase
  split_ifs <;> norm_num

set_option maxHeartbeats 1600000 in
/-- The sequential increment accumulation of `_rule_based_score` equals the
spec's independent sum plus jitter, under the shared clamp. -/
theorem rule_based_score_eq (pyhash : String → ℤ) (amount : ℚ)
    (sender_freq receiver_freq hour : ℕ) :
    rule_based_score pyhash amount sender_freq receiver_freq hour
      = max 0 (min (95/100)
          (ruleBase amount sender_freq receiver_freq hour +
           ruleNoise pyhash amount sender_freq hour)) := by
  simp only [rule_based_score, ruleBase, ruleNoise]
  split_ifs <;>
    exact congrArg (fun x : ℚ => max 0 (min (95/100) x)) (by ring)

/-- C8: the rule-based score equals the sum of the listed increments plus
the deterministic jitter, clamped to `[0, 0.95]` (the lower clamp being
inert since the sum is nonnegative); the jitter lies in `[0, 0.2)` and is
a function of the rendered `(amount, senderFrequency, hour)` tuple through
the supplied hash, so equal inputs yield equal scores under one fixed hash
function; and at amount 60000, frequencies 1 and hour 14 the pre-jitter
sum is `0.4 ≥ 0.35`, the score is at least `0.4`, and the label is
`Review`. -/
theorem c8_rule_fallback_spec (pyhash : String → ℤ) (amount : ℚ)
    (sender_freq receiver_freq hour : ℕ) :
    rule_based_score pyhash amount sender_freq receiver_freq hour
      = max 0 (min (95/100)
          (ruleBase amount sender_freq receiver_freq hour +
           ruleNoise pyhash amount sender_freq hour)) ∧
    rule_based_score pyhash amount sender_freq receiver_freq hour
      = min (95/100)
          (ruleBase amount sender_freq receiver_freq hour +
           ruleNoise pyhash amount sender_freq hour) ∧
    (0 ≤ ruleNoise pyhash amount sender_freq hour ∧
     ruleNoise pyhash amount sender_freq hour < 1/5) ∧
    ruleBase 60000 1 1 14 = 2/5 ∧
    2/5 ≤ rule_based_score pyhash 60000 1 1 14 ∧
    get_status_label (rule_based_score pyhash 60000 1 1 14) = "Review" := by
  have hnb := ruleNoise_bounds pyhash amount sender_freq hour
  have hsum := rule_based_score_eq pyhash amount sender_freq receiver_freq hour
  have hmin : rule_based_score pyhash amount sender_freq receiver_freq hour
      = min (95/100)
          (ruleBase amount sender_freq receiver_freq hour +
           ruleNoise pyhash amount sender_freq hour) := by
    rw [hsum]
    refine max_eq_right (le_min (by norm_num) ?_)
    have := ruleBase_nonneg amount sender_freq receiver_freq hour
    linarith [hnb.1]
  have hbase60 : ruleBase 60000 1 1 14 = 2/5 := by
    unfold ruleBase
    rw [if_pos (by norm_num),
      if_pos ⟨by norm_num, by norm_num [isThousandMultiple]⟩,
      if_neg (by norm_num), if_neg (by norm_num), if_neg (by norm_num)]
    norm_num
  have hnb60 := ruleNoise_bounds pyhash 60000 1 14
  have hsum60 : rule_based_score pyhash 60000 1 1 14
      = 2/5 + ruleNoise pyhash 60000 1 14 := by
    rw [rule_based_score_eq pyhash 60000 1 1 14, hbase60,
      min_eq_right (by linarith [hnb60.2]),
      max_eq_right (by linarith [hnb60.1])]
  refine ⟨hsum, hmin, hnb, hbase60, ?_, ?_⟩
  · rw [hsum60]
    linarith [hnb60.1]
  · rw [hsum60]
    unfold get_status_label Config.WARNING_THRESHOLD Config.FRAUD_THRESHOLD
    rw [if_neg (by linarith [hnb60.1]), if_pos (by linarith [hnb60.2])]

/-! ## Example fixtures -/

/-- Two registered users with wallets `WA` (balance 100) and `WB`
(balance 0), empty history, empty ledger, untrained model. -/
def exSt : St :=
  ⟨[⟨1, "a@x.com"⟩, ⟨2, "b@x.com"⟩], [⟨1, "WA", 100⟩, ⟨2, "WB", 0⟩],
   [], [], [], none⟩

/-- Nine committed transaction records, so the next commit is the tenth. -/
def nineTxns : List TxnR :=
  (List.range 9).map fun i =>
    ⟨"T" ++ toString i, "s@x.com", "r@x.com", 10, 0, "Clear", "Completed",
     "transfer", none, none⟩

/-! ## C1 -/

/-- C1 (divergence witness): a transfer of 50 from `WA` (balance 100) to
`WB` (balance 0) whose ledger append fails after the transfer commit.  The
code answers with the internal error, but the debit and credit are NOT
rolled back (final balances 50/50), the persisted record says
`Completed` — not `Failed` — because the compensating Failed-record insert
dies on the unique `tx_id` and is swallowed, and no ledger block exists.
The claim instead requires both balances back at 100/0 and a Failed
record. -/
theorem c1_ledger_append_failure_not_rolled_back :
    (transfer exSt 1 "WB" 50 "TX-1" "t0" 14 0 (fun _ => 0) false true).1
      = TransferOut.internalError ∧
    (transfer exSt 1 "WB" 50 "TX-1" "t0" 14 0 (fun _ => 0) false true).2
      = ⟨[⟨1, "a@x.com"⟩, ⟨2, "b@x.com"⟩],
         [⟨1, "WA", 50⟩, ⟨2, "WB", 50⟩],
         [⟨"TX-1", "a@x.com", "b@x.com", 50, 0, "Clear", "Completed",
           "transfer", none, none⟩],
         [], [], none⟩ := by
  exact ⟨rfl, by with_unfolding_all rfl⟩

/-! ## C3 -/

/-- C3 counterexample: a wallet transfer that commits the 10th transaction
record.  The running count of committed records is a multiple of 10, yet
the transfer triggers no retraining: the fraud-model snapshot stays
untrained (`none`).  (The periodic retrain lives only in
`routes.create_transaction`.) -/
theorem c3_transfer_does_not_retrain :
    ((transfer { exSt with txns := nineTxns } 1 "WB" 50 "TX-X" "t0" 14 0
        (fun _ => 0) false false).1).isCompleted = true ∧
    (transfer { exSt with txns := nineTxns } 1 "WB" 50 "TX-X" "t0" 14 0
        (fun _ => 0) false false).2.txns.length = 10 ∧
    (transfer { exSt with txns := nineTxns } 1 "WB" 50 "TX-X" "t0" 14 0
        (fun _ => 0) false false).2.mlModel = none := by
  refine ⟨rfl, ?_, rfl⟩
  with_unfolding_all rfl

/-- `_retrain_model` does not touch the transaction table. -/
theorem retrain_model_txns (st : St) : (retrain_model st).txns = st.txns := by
  unfold retrain_model
  split <;> rfl

/-- With at least 10 records, `_retrain_model` swaps in a snapshot fitted
on the full history. -/
theorem retrain_model_swaps (st : St) (h : 10 ≤ st.txns.length) :
    (retrain_model st).mlModel = some st.txns := by
  unfold retrain_model
  rw [if_neg (by omega)]

/-- C3 (amended): the wallet-to-wallet transfer operation never triggers
retraining — it leaves the fraud-model snapshot untouched on every path.
The periodic retrain belongs to the generic create-transaction operation:
after it commits, whenever the post-commit count of transaction records is
a multiple of 10 the model is refitted on the full transaction history
(synchronously, before the response), and otherwise the snapshot is
unchanged. -/
theorem c3_amended_retrain_on_create_transaction :
    (∀ (st : St) (uid : ℕ) (rid : String) (amount : ℚ) (txId now : String)
       (hour : ℕ) (mlRaw : ℚ) (pyhash : String → ℤ) (cf bf : Bool),
       ((transfer st uid rid amount txId now hour mlRaw pyhash cf bf).2).mlModel
         = st.mlModel) ∧
    (∀ (st : St) (sender receiver : String) (amount : ℚ) (txId now : String)
       (hour : ℕ) (mlRaw : ℚ) (pyhash : String → ℤ),
       ¬ sender.trim = "" → ¬ receiver.trim = "" → 0 < amount →
       (create_transaction st sender receiver amount txId now hour mlRaw
           pyhash).2.txns.length = st.txns.length + 1 ∧
       ((st.txns.length + 1) % 10 = 0 →
         (create_transaction st sender receiver amount txId now hour mlRaw
             pyhash).2.mlModel
           = some ((create_transaction st sender receiver amount txId now hour
               mlRaw pyhash).2.txns)) ∧
       ((st.txns.length + 1) % 10 ≠ 0 →
         (create_transaction st sender receiver amount txId now hour mlRaw
             pyhash).2.mlModel = st.mlModel)) := by
  constructor
  · intro st uid rid amount txId now hour mlRaw pyhash cf bf
    unfold transfer
    repeat' split <;> try rfl
    all_goals dsimp only
    all_goals split_ifs <;> rfl
  · intro st sender receiver amount txId now hour mlRaw pyhash hs hr hpos
    have hcond : ¬ (sender.trim = "" ∨ receiver.trim = "") := by
      simp [hs, hr]
    simp only [create_transaction, if_neg hcond, if_neg (not_le.mpr hpos)]
    have hlen : ∀ tx : TxnR, (st.txns ++ [tx]).length = st.txns.length + 1 := by
      simp
    refine ⟨?_, ?_, ?_⟩
    · split
      · rw [retrain_model_txns]
        exact hlen _
      · exact hlen _
    · intro h10
      split
      · rename_i hsplit
        rw [retrain_model_txns, retrain_model_swaps]
        rw [hlen] at hsplit
        rw [hlen]
        omega
      · rename_i hsplit
        rw [hlen] at hsplit
        exact absurd h10 hsplit
    · intro h10
      split
      · rename_i hsplit
        rw [hlen] at hsplit
        exact absurd hsplit h10
      · rfl

/-- Concrete instance of `c3_amended_retrain_on_create_transaction`: the
10th generic transaction does retrain the model on the full history. -/
theorem c3_amended_retrain_on_create_transaction_witness :
    (create_transaction { exSt with txns := nineTxns } "s@x.com" "r@x.com" 50
        "TX-X" "t0" 14 0 (fun _ => 0)).2.txns.length = 10 ∧
    (create_transaction { exSt with txns := nineTxns } "s@x.com" "r@x.com" 50
        "TX-X" "t0" 14 0 (fun _ => 0)).2.mlModel
      = some ((create_transaction { exSt with txns := nineTxns } "s@x.com"
          "r@x.com" 50 "TX-X" "t0" 14 0 (fun _ => 0)).2.txns) := by
  have h := c3_amended_retrain_on_create_transaction.2
    { exSt with txns := nineTxns } "s@x.com" "r@x.com" 50 "TX-X" "t0" 14 0
    (fun _ => 0) (by with_unfolding_all decide) (by with_unfolding_all decide)
    (by norm_num)
  have hnine : nineTxns.length = 9 := by simp [nineTxns]
  refine ⟨?_, h.2.1 ?_⟩
  · rw [h.1]
    simp [hnine]
  · simp [hnine]

/-! ## C2 -/

/-- The in-memory debit/credit map leaves every wallet id unchanged. -/
theorem applyTransfer_preserves_id (sid rid : String) (amount : ℚ)
    (w : WalletR) :
    (if w.wallet_id = sid then { w with balance := w.balance - amount }
     else if w.wallet_id = rid then { w with balance := w.balance + amount }
     else w).wallet_id = w.wallet_id := by
  split_ifs <;> rfl

/-- Looking a wallet up after the debit/credit map is looking it up before
and then applying the per-wallet update. -/
theorem find?_applyTransfer (ws : List WalletR) (sid rid : String)
    (amount : ℚ) (t : String) :
    (applyTransferBalances ws sid rid amount).find?
        (fun w => w.wallet_id == t)
      = (ws.find? (fun w => w.wallet_id == t)).map
          (fun w => if w.wallet_id = sid
            then { w with balance := w.balance - amount }
            else if w.wallet_id = rid
            then { w with balance := w.balance + amount }
            else w) := by
  unfold applyTransferBalances
  apply find?_map_pres
  intro a
  rw [applyTransfer_preserves_id]

/-- C2: a transfer of amount `A` between two distinct existing wallets that
completes successfully debits the sender by exactly `A` and credits the
receiver by exactly `A`, so the sum of the two balances is conserved, and
given `A ≤ ` sender balance (and the receiver's non-negativity invariant)
both final balances are non-negative. -/
theorem c2_completed_transfer_conservation
    (st : St) (uid : ℕ) (rid : String) (amount : ℚ) (txId now : String)
    (hour : ℕ) (mlRaw : ℚ) (pyhash : String → ℤ) (X Y : WalletR)
    (hrid : ¬ rid = "")
    (hX : st.wallets.find? (fun w => w.user_id == uid) = some X)
    (hY : st.wallets.find? (fun w => w.wallet_id == rid) = some Y)
    (hne : ¬ X.wallet_id = rid)
    (hnodup : (st.wallets.map (fun w => w.wallet_id)).Nodup)
    (hpos : 0 < amount) (hle : amount ≤ X.balance) (hYnn : 0 ≤ Y.balance)
    (hfresh : ∀ t ∈ st.txns, ¬ t.tx_id = txId) :
    ((transfer st uid rid amount txId now hour mlRaw pyhash
        false false).1).isCompleted = true ∧
    lookupBalance (transfer st uid rid amount txId now hour mlRaw pyhash
        false false).2 X.wallet_id = some (X.balance - amount) ∧
    lookupBalance (transfer st uid rid amount txId now hour mlRaw pyhash
        false false).2 rid = some (Y.balance + amount) ∧
    (X.balance - amount) + (Y.balance + amount) = X.balance + Y.balance ∧
    0 ≤ X.balance - amount ∧ 0 ≤ Y.balance + amount := by
  have hYid : Y.wallet_id = rid := by
    have := List.find?_some hY
    simpa using this
  have hdup : (st.txns.any fun t => t.tx_id == txId) = false := by
    rw [List.any_eq_false]
    intro t ht
    simpa using hfresh t ht
  have hXfind : st.wallets.find? (fun w => w.wallet_id == X.wallet_id)
      = some X :=
    find?_key_of_mem (fun w => w.wallet_id) hnodup
      (List.mem_of_find?_eq_some hX)
  simp only [transfer, if_neg hrid, if_neg (not_le.mpr hpos), hX, hY,
    if_neg hne, if_neg (not_lt.mpr hle), hdup, Bool.false_eq_true, or_self,
    if_false, if_neg (by simp : ¬ (False ∨ False))]
  refine ⟨rfl, ?_, ?_, by ring, by linarith, by linarith⟩
  · simp only [lookupBalance, find?_applyTransfer, hXfind, Option.map_map,
      Option.map_some]
    simp
  · have hYX : ¬ Y.wallet_id = X.wallet_id := by
      rw [hYid]
      exact fun hc => hne hc.symm
    simp only [lookupBalance, find?_applyTransfer, hY]
    simp [hYX, hYid]
    rw [if_neg (fun hc => hne hc.symm)]

/-- Concrete instance of `c2_completed_transfer_conservation`: transferring
50 from `WA` (100) to `WB` (0) leaves balances 50 and 50. -/
theorem c2_completed_transfer_conservation_witness :
    lookupBalance (transfer exSt 1 "WB" 50 "TX-1" "t0" 14 0 (fun _ => 0)
        false false).2 "WA" = some 50 ∧
    lookupBalance (transfer exSt 1 "WB" 50 "TX-1" "t0" 14 0 (fun _ => 0)
        false false).2 "WB" = some 50 := by
  have h := c2_completed_transfer_conservation exSt 1 "WB" 50 "TX-1" "t0" 14 0
    (fun _ => 0) ⟨1, "WA", 100⟩ ⟨2, "WB", 0⟩ (by decide) rfl rfl (by decide)
    (by decide) (by norm_num) (by norm_num) (by norm_num) (by simp [exSt])
  have h1 := h.2.1
  have h2 := h.2.2.1
  norm_num at h1 h2
  exact ⟨h1, h2⟩

/-! ## C6 -/

/-- C6: each early rejection of `transfer` — non-positive amount,
self-transfer, insufficient balance (the response carrying the current
balance), unknown receiver wallet — happens before any mutation: the
returned state is exactly the input state, so no balance change, no
transaction record and no ledger block. -/
theorem c6_rejections_before_mutation
    (st : St) (uid : ℕ) (rid : String) (amount : ℚ) (txId now : String)
    (hour : ℕ) (mlRaw : ℚ) (pyhash : String → ℤ) (cf bf : Bool) :
    (¬ rid = "" → amount ≤ 0 →
      transfer st uid rid amount txId now hour mlRaw pyhash cf bf
        = (.amountNotPositive, st)) ∧
    (∀ X : WalletR, ¬ rid = "" → 0 < amount →
      st.wallets.find? (fun w => w.user_id == uid) = some X →
      X.wallet_id = rid →
      transfer st uid rid amount txId now hour mlRaw pyhash cf bf
        = (.selfTransfer, st)) ∧
    (∀ X : WalletR, ¬ rid = "" → 0 < amount →
      st.wallets.find? (fun w => w.user_id == uid) = some X →
      ¬ X.wallet_id = rid → X.balance < amount →
      transfer st uid rid amount txId now hour mlRaw pyhash cf bf
        = (.insufficientBalance X.balance, st)) ∧
    (∀ X : WalletR, ¬ rid = "" → 0 < amount →
      st.wallets.find? (fun w => w.user_id == uid) = some X →
      ¬ X.wallet_id = rid → ¬ X.balance < amount →
      st.wallets.find? (fun w => w.wallet_id == rid) = none →
      transfer st uid rid amount txId now hour mlRaw pyhash cf bf
        = (.receiverNotFound, st)) := by
  refine ⟨?_, ?_, ?_, ?_⟩
  · intro hrid hle
    simp only [transfer, if_neg hrid, if_pos hle]
  · intro X hrid hpos hX hself
    simp only [transfer, if_neg hrid, if_neg (not_le.mpr hpos), hX,
      if_pos hself]
  · intro X hrid hpos hX hself hlt
    simp only [transfer, if_neg hrid, if_neg (not_le.mpr hpos), hX,
      if_neg hself, if_pos hlt]
  · intro X hrid hpos hX hself hlt hnone
    simp only [transfer, if_neg hrid, if_neg (not_le.mpr hpos), hX,
      if_neg hself, if_neg hlt, hnone]

/-- Concrete instances of `c6_rejections_before_mutation`: an
over-balance transfer is rejected carrying the balance 100 with the state
untouched, and a zero-amount transfer is rejected with the state
untouched. -/
theorem c6_rejections_before_mutation_witness :
    transfer exSt 1 "WB" 200 "TX-1" "t0" 14 0 (fun _ => 0) false false
      = (.insufficientBalance 100, exSt) ∧
    transfer exSt 1 "WB" 0 "TX-1" "t0" 14 0 (fun _ => 0) false false
      = (.amountNotPositive, exSt) := by
  constructor
  · exact (c6_rejections_before_mutation exSt 1 "WB" 200 "TX-1" "t0" 14 0
      (fun _ => 0) false false).2.2.1 ⟨1, "WA", 100⟩ (by decide)
      (by norm_num) rfl (by decide) (by norm_num)
  · exact (c6_rejections_before_mutation exSt 1 "WB" 0 "TX-1" "t0" 14 0
      (fun _ => 0) false false).1 (by decide) (by norm_num)

/-! ## C9 -/

/-- Looking a wallet up after the deposit credit map is looking it up
before and then applying the credit. -/
theorem find?_creditMap (ws : List WalletR) (wid : String) (amount : ℚ)
    (t : String) :
    (ws.map (fun x => if x.wallet_id = wid
        then { x with balance := x.balance + amount } else x)).find?
        (fun w => w.wallet_id == t)
      = (ws.find? (fun w => w.wallet_id == t)).map
          (fun x => if x.wallet_id = wid
            then { x with balance := x.balance + amount } else x) := by
  apply find?_map_pres
  intro a
  split_ifs <;> rfl

/-- C9: `mock_deposit` rejects amounts below 10 and unknown payment methods
with the state unchanged; while the per-user deposit guard is held a second
request of the same user is rejected immediately with the
already-processing error and no state change; a successful deposit credits
exactly the amount (never decreasing the balance) and persists a record
with kind `deposit`, status `Completed`, fraud score 0, label `Clear`,
sender "Bank Deposit", receiver the owner's email and payment
method/id set; and the guard is released on every exit path — success,
owner-lookup failure and internal failure all return with the lock set
restored. -/
theorem c9_mock_deposit_spec
    (st : St) (uid : ℕ) (amount : ℚ) (method payId txId now : String)
    (cf : Bool) :
    (amount < 10 →
      mock_deposit st uid amount method payId txId now cf
        = (.belowMinimum, st)) ∧
    (¬ amount < 10 →
      ¬ (method.trim.toLower = "upi" ∨ method.trim.toLower = "card" ∨
         method.trim.toLower = "netbanking") →
      mock_deposit st uid amount method payId txId now cf
        = (.invalidMethod, st)) ∧
    (¬ amount < 10 →
      (method.trim.toLower = "upi" ∨ method.trim.toLower = "card" ∨
       method.trim.toLower = "netbanking") →
      ("deposit-" ++ toString uid) ∈ st.locks →
      mock_deposit st uid amount method payId txId now cf
        = (.alreadyProcessing, st)) ∧
    (∀ (w : WalletR) (u : UserR), ¬ amount < 10 →
      (method.trim.toLower = "upi" ∨ method.trim.toLower = "card" ∨
       method.trim.toLower = "netbanking") →
      ("deposit-" ++ toString uid) ∉ st.locks →
      st.wallets.find? (fun x => x.user_id == uid) = some w →
      st.users.find? (fun x => x.id == uid) = some u →
      (st.wallets.map (fun x => x.wallet_id)).Nodup →
      (∀ t ∈ st.txns, ¬ t.tx_id = txId) →
      cf = false →
      (mock_deposit st uid amount method payId txId now cf).1
        = .completed ⟨txId, "Bank Deposit", u.email, amount, 0, "Clear",
            "Completed", "deposit", some method.trim.toLower, some payId⟩
            (w.balance + amount) ∧
      (mock_deposit st uid amount method payId txId now cf).2.locks
        = st.locks ∧
      lookupBalance (mock_deposit st uid amount method payId txId now cf).2
          w.wallet_id = some (w.balance + amount) ∧
      (mock_deposit st uid amount method payId txId now cf).2.txns
        = st.txns ++ [⟨txId, "Bank Deposit", u.email, amount, 0, "Clear",
            "Completed", "deposit", some method.trim.toLower, some payId⟩] ∧
      w.balance ≤ w.balance + amount) ∧
    (∀ w : WalletR, ¬ amount < 10 →
      (method.trim.toLower = "upi" ∨ method.trim.toLower = "card" ∨
       method.trim.toLower = "netbanking") →
      ("deposit-" ++ toString uid) ∉ st.locks →
      st.wallets.find? (fun x => x.user_id == uid) = some w →
      cf = true →
      mock_deposit st uid amount method payId txId now cf
        = (.internalError, st)) ∧
    (¬ amount < 10 →
      (method.trim.toLower = "upi" ∨ method.trim.toLower = "card" ∨
       method.trim.toLower = "netbanking") →
      ("deposit-" ++ toString uid) ∉ st.locks →
      st.wallets.find? (fun x => x.user_id == uid) = none →
      st.users.find? (fun x => x.id == uid) = none →
      mock_deposit st uid amount method payId txId now cf
        = (.userNotFound, st)) := by
  refine ⟨?_, ?_, ?_, ?_, ?_, ?_⟩
  · intro h10
    simp only [mock_deposit, if_pos h10]
  · intro h10 hm
    simp only [mock_deposit, if_neg h10, if_pos hm]
  · intro h10 hm hlock
    simp only [mock_deposit, if_neg h10, if_neg (not_not_intro hm),
      if_pos hlock]
  · intro w u h10 hm hlock hw hu hnodup hfresh hcf
    have hdup : (st.txns.any fun t => t.tx_id == txId) = false := by
      rw [List.any_eq_false]
      intro t ht
      simpa using hfresh t ht
    have hwfind : st.wallets.find? (fun x => x.wallet_id == w.wallet_id)
        = some w :=
      find?_key_of_mem (fun x => x.wallet_id) hnodup
        (List.mem_of_find?_eq_some hw)
    subst hcf
    simp only [mock_deposit, depositCore, if_neg h10,
      if_neg (not_not_intro hm), if_neg hlock, hw, hu, hdup,
      Bool.false_eq_true, or_self, if_false, erase_append_self hlock]
    refine ⟨trivial, trivial, ?_, trivial, by linarith [not_lt.mp h10]⟩
    simp only [lookupBalance, find?_creditMap, hwfind, Option.map_some]
    simp
  · intro w h10 hm hlock hw hcf
    subst hcf
    simp only [mock_deposit, depositCore, if_neg h10,
      if_neg (not_not_intro hm), if_neg hlock, hw,
      erase_append_self hlock]
    split
    · rfl
    · rename_i hcond
      exact absurd (Or.inl trivial) hcond
  · intro h10 hm hlock hw hu
    simp only [mock_deposit, if_neg h10, if_neg (not_not_intro hm),
      if_neg hlock, hw, hu, erase_append_self hlock]

/-- Concrete instance of the success clause of `c9_mock_deposit_spec`:
depositing 500 via upi into `WA` (balance 100) releases the guard and
leaves balance 600. -/
theorem c9_mock_deposit_spec_witness :
    (mock_deposit exSt 1 500 "upi" "PAY" "DEP-1" "t0" false).2.locks = [] ∧
    lookupBalance (mock_deposit exSt 1 500 "upi" "PAY" "DEP-1" "t0" false).2
      "WA" = some 600 := by
  have h := (c9_mock_deposit_spec exSt 1 500 "upi" "PAY" "DEP-1" "t0"
      false).2.2.2.1 ⟨1, "WA", 100⟩ ⟨1, "a@x.com"⟩ (by norm_num)
      (Or.inl (by with_unfolding_all rfl)) (by simp [exSt]) rfl rfl
      (by decide) (by simp [exSt]) rfl
  refine ⟨?_, ?_⟩
  · rw [h.2.1]
    rfl
  · have h3 := h.2.2.1
    norm_num at h3
    exact h3
